import Mathlib

/-
Formal model of the robinfolio accounting core, embedded from the Python
sources `src/robinfolio/notion.py`, `src/robinfolio/robinhood.py` and
`src/robinfolio/main.py`.

Conventions of the embedding:
* quantities, prices and cost bases are exact rationals (the Python code uses
  floats parsed from decimal strings; the spec describes them as non-negative
  rationals of bounded decimal precision);
* timestamps (`Order date` / ISO date strings, Notion `Created` times) are
  naturals — ISO-8601 strings compare lexicographically exactly as their
  instants compare, so any linearly ordered timestamp type is faithful;
* Notion page ids are `String`s;
* a Python crash (uncaught `IndexError`) or a float non-value (NaN / inf
  produced by dividing by a zero sum) is modelled as `none` of an `Option`
  result.
-/

/-- One row of the buy-orders dataframe built in `define_sell_lots`
(`notion.py` lines 493-509): a BUY order page of the stock with
`Current shares > 0`, carrying the page id, the `Order date` start timestamp,
the Notion `Created` timestamp, and the `Current shares` and
`Cost basis (BUY)` formula numbers. -/
structure BuyRow where
  pg_id : String
  order_date : ℕ
  created : ℕ
  current_shares : ℚ
  cost_basis : ℚ
deriving DecidableEq

/-- One element of the `sell_lots` list returned by `define_sell_lots`
(`notion.py` lines 541-547): the buy page the shares are taken from, the
shares left in it, and the shares sold from it. -/
structure SellLot where
  buy_pg_id : String
  shares_left : ℚ
  shares_sold : ℚ
deriving DecidableEq

/-- The consumption loop of `define_sell_lots` (`notion.py` lines 513-537).
The first row is read unconditionally (`buy_orders_df.iloc[0]`); while sold
shares remain to be allocated the next row is read.  Reading past the end of
the dataframe raises `IndexError` in pandas, modelled as `none`.  On `some`,
the returned list pairs each touched row with the value written into its
`shares_left` cell (`0` when the row had fewer shares than remained to be
allocated, otherwise `Current shares - remaining`). -/
def consume_rows : List BuyRow → ℚ → Option (List (BuyRow × ℚ))
  | [], _ => none
  | r :: rest, to_allocate =>
    let shares_left := r.current_shares - to_allocate
    if shares_left < 0 then
      (consume_rows rest (-shares_left)).map (fun tail => (r, 0) :: tail)
    else
      some [(r, shares_left)]

/-- The dataframe after the consumption loop: the touched rows (always a
prefix of the sorted dataframe) carry their new `shares_left` cell, the
remaining rows were never assigned one (their `shares_left` is NaN,
modelled `none`). -/
def updated_rows (rows : List BuyRow) (touched : List (BuyRow × ℚ)) :
    List (BuyRow × Option ℚ) :=
  touched.map (fun p => (p.1, some p.2)) ++
    (rows.drop touched.length).map (fun r => (r, none))

/-- Function `define_sell_lots` (`notion.py` lines 453-552) after the store query: the
argument `rows` is the queried buy-order dataframe — every BUY page of the
stock with `Current shares > 0`, sorted ascending by
(`Order date`, `Created`) per lines 490-509.  The loop of lines 513-537 runs
(`consume_rows`), then `shares_sold = Current shares - shares_left` is
computed per row and the `sell_lots` list is assembled by looking each
collected `buy_pg_id` up in the dataframe (lines 539-547; the lookup takes
the first row whose id matches, and fails if that row has no `shares_left`
value — with unique page ids this never happens). -/
def define_sell_lots (rows : List BuyRow) (total_shares_sold : ℚ) :
    Option (List SellLot) :=
  (consume_rows rows total_shares_sold).bind (fun touched =>
    let buy_pg_ids := touched.map (fun p => p.1.pg_id)
    let table := updated_rows rows touched
    buy_pg_ids.mapM (fun pid =>
      (table.find? (fun e => e.1.pg_id == pid)).bind (fun e =>
        e.2.map (fun sl =>
          { buy_pg_id := pid, shares_left := sl,
            shares_sold := e.1.current_shares - sl }))))

/-- The FIFO allocation pseudocode of the spec (§4.2): walk the lots in
order; stop when nothing remains to allocate, skip exhausted lots, and take
`min (lot remaining) (still to allocate)` from each other lot. -/
def fifo_alloc : List BuyRow → ℚ → List (String × ℚ)
  | [], _ => []
  | lot :: lots, remaining =>
    if remaining = 0 then []
    else if lot.current_shares = 0 then fifo_alloc lots remaining
    else
      let take := min lot.current_shares remaining
      (lot.pg_id, take) :: fifo_alloc lots (remaining - take)

/-- Ascending order on buy rows by the pair (`Order date`, `Created`) — the
sort key of `buy_orders_df.sort_values(by=['Order date', 'Created'])`
(`notion.py` line 508). -/
def lot_key_le (a b : BuyRow) : Prop :=
  a.order_date < b.order_date ∨
    (a.order_date = b.order_date ∧ a.created ≤ b.created)

instance : DecidableRel lot_key_le := fun a b => by
  unfold lot_key_le; infer_instance

/-- The rows touched by the consumption loop are an initial segment of the
dataframe: the loop starts at row 0 and only ever steps to the next row. -/
lemma consume_rows_prefix :
    ∀ (rows : List BuyRow) (q : ℚ) (t : List (BuyRow × ℚ)),
      consume_rows rows q = some t → t.map Prod.fst = rows.take t.length
  | [], q, t, h => by simp [consume_rows] at h
  | r :: rest, q, t, h => by
    rw [consume_rows] at h
    by_cases hneg : r.current_shares - q < 0
    · rw [if_pos hneg, Option.map_eq_some'] at h
      obtain ⟨t', ht', rfl⟩ := h
      have ih := consume_rows_prefix rest (-(r.current_shares - q)) t' ht'
      simp [ih]
    · rw [if_neg hneg] at h
      have h' := Option.some.inj h
      subst h'
      simp

/-- Every touched row is a row of the dataframe, and the `shares_left`
value written into it is non-negative. -/
lemma consume_rows_mem :
    ∀ (rows : List BuyRow) (q : ℚ) (t : List (BuyRow × ℚ)),
      consume_rows rows q = some t →
      ∀ p ∈ t, p.1 ∈ rows ∧ 0 ≤ p.2
  | [], q, t, h => by simp [consume_rows] at h
  | r :: rest, q, t, h => by
    rw [consume_rows] at h
    by_cases hneg : r.current_shares - q < 0
    · rw [if_pos hneg, Option.map_eq_some'] at h
      obtain ⟨t', ht', rfl⟩ := h
      intro p hp
      rcases List.mem_cons.mp hp with rfl | hp'
      · exact ⟨List.mem_cons_self _ _, le_refl 0⟩
      · obtain ⟨h1, h2⟩ := consume_rows_mem rest _ t' ht' p hp'
        exact ⟨List.mem_cons_of_mem _ h1, h2⟩
    · rw [if_neg hneg] at h
      have h' := Option.some.inj h
      subst h'
      intro p hp
      simp only [List.mem_singleton] at hp
      subst hp
      exact ⟨List.mem_cons_self _ _, le_of_not_lt hneg⟩

/-- In an association table whose keys are pairwise distinct, `find?` by the
key of a member returns exactly that member. -/
lemma find?_of_nodup_keys :
    ∀ (L : List (BuyRow × Option ℚ)) (r : BuyRow) (s : Option ℚ),
      (L.map (fun e => e.1.pg_id)).Nodup → (r, s) ∈ L →
      L.find? (fun e => e.1.pg_id == r.pg_id) = some (r, s)
  | [], r, s, _, hmem => by simp at hmem
  | e :: L, r, s, hnd, hmem => by
    rw [List.map_cons, List.nodup_cons] at hnd
    by_cases hk : e.1.pg_id = r.pg_id
    · have heq : (r, s) = e := by
        rcases List.mem_cons.mp hmem with h | h
        · exact h
        · exfalso
          apply hnd.1
          rw [hk]
          exact List.mem_map_of_mem (fun e => e.1.pg_id) h
      rw [List.find?_cons_of_pos _ (by simp [hk]), ← heq]
    · have hmem' : (r, s) ∈ L := by
        rcases List.mem_cons.mp hmem with h | h
        · exact absurd (congrArg (fun e => e.1.pg_id) h.symm) hk
        · exact h
      rw [List.find?_cons_of_neg _ (by simp [hk])]
      exact find?_of_nodup_keys L r s hnd.2 hmem'

/-- Mapping `mapM` over keyed elements succeeds elementwise. -/
lemma mapM_map_eq_some {α β γ : Type} (f : β → Option γ) (key : α → β)
    (g : α → γ) :
    ∀ (l : List α), (∀ x ∈ l, f (key x) = some (g x)) →
      (l.map key).mapM f = some (l.map g)
  | [], _ => rfl
  | x :: l, h => by
    rw [List.map_cons, List.mapM_cons, h x (List.mem_cons_self _ _),
      mapM_map_eq_some f key g l (fun y hy => h y (List.mem_cons_of_mem _ hy))]
    rfl

/-- Unfolding `define_sell_lots` through its dataframe lookups: when the page
ids of the queried rows are pairwise distinct (Notion page ids are unique)
and the consumption loop returns `touched`, the assembled `sell_lots` list
is `touched` with `shares_sold = Current shares - shares_left` per row. -/
lemma define_sell_lots_eq (rows : List BuyRow) (q : ℚ)
    (t : List (BuyRow × ℚ))
    (hnd : (rows.map (fun r => r.pg_id)).Nodup)
    (hc : consume_rows rows q = some t) :
    define_sell_lots rows q =
      some (t.map (fun p =>
        { buy_pg_id := p.1.pg_id, shares_left := p.2,
          shares_sold := p.1.current_shares - p.2 })) := by
  have hpre := consume_rows_prefix rows q t hc
  have htable : ((updated_rows rows t).map (fun e => e.1.pg_id)).Nodup := by
    have hkeys : (updated_rows rows t).map (fun e => e.1.pg_id) =
        rows.map (fun r => r.pg_id) := by
      unfold updated_rows
      rw [List.map_append, List.map_map, List.map_map]
      have h1 : t.map ((fun e : BuyRow × Option ℚ => e.1.pg_id) ∘
          (fun p : BuyRow × ℚ => (p.1, some p.2))) =
          (t.map Prod.fst).map (fun r => r.pg_id) := by
        rw [List.map_map]; rfl
      have h2 : (rows.drop t.length).map
          ((fun e : BuyRow × Option ℚ => e.1.pg_id) ∘
            (fun r : BuyRow => (r, (none : Option ℚ)))) =
          (rows.drop t.length).map (fun r => r.pg_id) := rfl
      rw [h1, h2, hpre, ← List.map_append, List.take_append_drop]
    rw [hkeys]; exact hnd
  rw [define_sell_lots, hc, Option.some_bind]
  refine mapM_map_eq_some _ (fun p : BuyRow × ℚ => p.1.pg_id) _ t ?_
  intro p hp
  have hmem : (p.1, some p.2) ∈ updated_rows rows t := by
    exact List.mem_append_left _
      (List.mem_map_of_mem (fun p : BuyRow × ℚ => (p.1, some p.2)) hp)
  rw [find?_of_nodup_keys _ p.1 (some p.2) htable hmem]
  rfl

/-- The spec's FIFO loop allocates nothing when nothing remains to sell. -/
lemma fifo_alloc_zero : ∀ (rows : List BuyRow), fifo_alloc rows 0 = []
  | [] => rfl
  | _ :: _ => by rw [fifo_alloc]; simp

/-- Greedy characterization of the consumption loop: on a dataframe of rows
with positive remaining shares (the store filter `Current shares > 0`), a
positive sale covered by the total remaining shares succeeds, the touched
rows carry exactly the allocations of the spec's FIFO pseudocode, and the
consumed shares sum to the sale quantity. -/
lemma consume_rows_greedy :
    ∀ (rows : List BuyRow) (q : ℚ),
      (∀ r ∈ rows, 0 < r.current_shares) → 0 < q →
      q ≤ (rows.map (fun r => r.current_shares)).sum →
      ∃ t, consume_rows rows q = some t ∧
        t.map (fun p => (p.1.pg_id, p.1.current_shares - p.2)) =
          fifo_alloc rows q ∧
        (t.map (fun p => p.1.current_shares - p.2)).sum = q
  | [], q, _, hq, hle => by
    simp only [List.map_nil, List.sum_nil] at hle
    exact absurd (lt_of_lt_of_le hq hle) (lt_irrefl 0)
  | r :: rest, q, hpos, hq, hle => by
    have hrpos : 0 < r.current_shares := hpos r (List.mem_cons_self _ _)
    rw [consume_rows]
    by_cases hneg : r.current_shares - q < 0
    · -- this row is fully consumed and the loop continues
      have hlt : r.current_shares < q := by linarith
      have hq' : 0 < -(r.current_shares - q) := by linarith
      have hle' : -(r.current_shares - q) ≤
          (rest.map (fun r => r.current_shares)).sum := by
        simp only [List.map_cons, List.sum_cons] at hle
        linarith
      obtain ⟨t', hc', hg', hs'⟩ := consume_rows_greedy rest
        (-(r.current_shares - q))
        (fun x hx => hpos x (List.mem_cons_of_mem _ hx)) hq' hle'
      rw [neg_sub] at hg' hs'
      refine ⟨(r, 0) :: t', by rw [if_pos hneg, hc']; rfl, ?_, ?_⟩
      · rw [fifo_alloc, if_neg (ne_of_gt hq), if_neg (ne_of_gt hrpos),
          min_eq_left (le_of_lt hlt), List.map_cons, sub_zero, hg']
      · simp only [List.map_cons, List.sum_cons, sub_zero, hs']
        ring
    · -- this row covers the whole sale and the loop stops
      have hle'' : q ≤ r.current_shares := by linarith
      refine ⟨[(r, r.current_shares - q)], by rw [if_neg hneg], ?_, ?_⟩
      · rw [fifo_alloc, if_neg (ne_of_gt hq), if_neg (ne_of_gt hrpos),
          min_eq_right hle'']
        show _ = (r.pg_id, q) :: fifo_alloc rest (q - q)
        rw [sub_self, fifo_alloc_zero]
        have hsub : r.current_shares - (r.current_shares - q) = q := by ring
        simp only [List.map_cons, List.map_nil, hsub]
      · simp only [List.map_cons, List.map_nil, List.sum_cons, List.sum_nil]
        ring

/-- When the sale exceeds the total remaining shares of the position, the
consumption loop keeps stepping to the next dataframe row until it runs off
the end of the dataframe (`IndexError`, modelled `none`). -/
lemma consume_rows_oversell :
    ∀ (rows : List BuyRow) (q : ℚ),
      (∀ r ∈ rows, 0 < r.current_shares) →
      (rows.map (fun r => r.current_shares)).sum < q →
      consume_rows rows q = none
  | [], q, _, _ => rfl
  | r :: rest, q, hpos, hlt => by
    rw [consume_rows]
    have hrpos := hpos r (List.mem_cons_self _ _)
    have hrest0 : 0 ≤ (rest.map (fun x => x.current_shares)).sum := by
      apply List.sum_nonneg
      intro x hx
      rw [List.mem_map] at hx
      obtain ⟨y, hy, rfl⟩ := hx
      exact le_of_lt (hpos y (List.mem_cons_of_mem _ hy))
    rw [List.map_cons, List.sum_cons] at hlt
    have hneg : r.current_shares - q < 0 := by linarith
    rw [if_pos hneg, consume_rows_oversell rest (-(r.current_shares - q))
      (fun x hx => hpos x (List.mem_cons_of_mem _ hx)) (by linarith)]
    rfl

/-- C1.  For every position whose buy lots are sorted ascending by
(order timestamp, created timestamp) and every positive sell quantity not
exceeding the position's total remaining shares, `define_sell_lots` consumes
lots strictly oldest-first: its allocation is exactly the spec's FIFO
pseudocode (take `min (remaining, still-to-allocate)` from each lot in
order, never skipping a lot with remaining shares, never reordering by
price), and each produced sell lot records `shares_left =
current shares - shares sold` on its buy lot. -/
theorem c1_fifo_strict_oldest_first (rows : List BuyRow) (q : ℚ)
    (hsorted : List.Sorted lot_key_le rows)
    (hpos : ∀ r ∈ rows, 0 < r.current_shares)
    (hnd : (rows.map (fun r => r.pg_id)).Nodup)
    (hq : 0 < q)
    (hle : q ≤ (rows.map (fun r => r.current_shares)).sum) :
    ∃ lots, define_sell_lots rows q = some lots ∧
      lots.map (fun l => (l.buy_pg_id, l.shares_sold)) = fifo_alloc rows q ∧
      ∀ l ∈ lots, ∃ r ∈ rows, r.pg_id = l.buy_pg_id ∧
        l.shares_left = r.current_shares - l.shares_sold := by
  obtain ⟨t, hc, hg, _⟩ := consume_rows_greedy rows q hpos hq hle
  refine ⟨_, define_sell_lots_eq rows q t hnd hc, ?_, ?_⟩
  · rw [List.map_map]
    exact hg
  · intro l hl
    rw [List.mem_map] at hl
    obtain ⟨p, hp, rfl⟩ := hl
    obtain ⟨hmem, _⟩ := consume_rows_mem rows q t hc p hp
    refine ⟨p.1, hmem, rfl, ?_⟩
    show p.2 = p.1.current_shares - (p.1.current_shares - p.2)
    ring

/-- Witness for C1 at the spec's worked example (§8): BUY(10 @ $1, t=1),
BUY(10 @ $2, t=2), SELL(15) allocates [(lot1, 10), (lot2, 5)], leaving
lot1 with 0 and lot2 with 5 remaining shares. -/
theorem c1_fifo_strict_oldest_first_witness :
    (∃ lots,
      define_sell_lots
        [⟨"lot1", 1, 1, 10, 10⟩, ⟨"lot2", 2, 2, 10, 20⟩] 15 = some lots ∧
      lots.map (fun l => (l.buy_pg_id, l.shares_sold)) =
        fifo_alloc [⟨"lot1", 1, 1, 10, 10⟩, ⟨"lot2", 2, 2, 10, 20⟩] 15 ∧
      ∀ l ∈ lots, ∃ r ∈ [⟨"lot1", 1, 1, 10, 10⟩, ⟨"lot2", 2, 2, 10, 20⟩],
        BuyRow.pg_id r = l.buy_pg_id ∧
        l.shares_left = r.current_shares - l.shares_sold) ∧
    define_sell_lots
      [⟨"lot1", 1, 1, 10, 10⟩, ⟨"lot2", 2, 2, 10, 20⟩] 15 =
      some [⟨"lot1", 0, 10⟩, ⟨"lot2", 5, 5⟩] := by
  constructor
  · exact c1_fifo_strict_oldest_first _ 15 (by decide) (by decide) (by decide)
      (by decide) (by norm_num)
  · norm_num [define_sell_lots, consume_rows, updated_rows, List.find?,
      List.mapM, List.mapM.loop]
    simp
    norm_num

/-- C2.  The code has no oversell check: for every sell whose quantity
exceeds the position's total remaining shares, the consumption loop steps
past the last dataframe row and pandas raises an uncaught `IndexError`
(modelled: `define_sell_lots` produces no result), instead of the
`InsufficientSharesError` the spec prescribes.  No persisted lot is
mutated — `define_sell_lots` never writes to the store — but the whole run
aborts rather than cleanly rejecting the one SELL event. -/
theorem c2_oversell_hits_index_error (rows : List BuyRow) (q : ℚ)
    (hpos : ∀ r ∈ rows, 0 < r.current_shares)
    (hlt : (rows.map (fun r => r.current_shares)).sum < q) :
    define_sell_lots rows q = none := by
  rw [define_sell_lots, consume_rows_oversell rows q hpos hlt]
  rfl

/-- Witness for C2 at the spec's oversell example (§8): a position with 5
remaining shares and SELL(6). -/
theorem c2_oversell_hits_index_error_witness :
    ([(⟨"lot1", 1, 1, 5, 5⟩ : BuyRow)].map
        (fun r => r.current_shares)).sum < 6 ∧
    define_sell_lots [⟨"lot1", 1, 1, 5, 5⟩] 6 = none := by
  constructor
  · norm_num
  · exact c2_oversell_hits_index_error _ 6 (by decide) (by norm_num)

/-- C4.  For every sell allocation produced under the allocator's
precondition (positive sale covered by the remaining shares), the consumed
shares over all produced (lot, shares) pairs sum exactly to the sell
quantity, and each pair consumes at most its lot's remaining quantity at the
time of consumption. -/
theorem c4_allocation_sums_exactly (rows : List BuyRow) (q : ℚ)
    (hpos : ∀ r ∈ rows, 0 < r.current_shares)
    (hnd : (rows.map (fun r => r.pg_id)).Nodup)
    (hq : 0 < q)
    (hle : q ≤ (rows.map (fun r => r.current_shares)).sum) :
    ∃ lots, define_sell_lots rows q = some lots ∧
      (lots.map (fun l => l.shares_sold)).sum = q ∧
      ∀ l ∈ lots, ∃ r ∈ rows, r.pg_id = l.buy_pg_id ∧
        l.shares_sold ≤ r.current_shares := by
  obtain ⟨t, hc, _, hs⟩ := consume_rows_greedy rows q hpos hq hle
  refine ⟨_, define_sell_lots_eq rows q t hnd hc, ?_, ?_⟩
  · rw [List.map_map]
    exact hs
  · intro l hl
    rw [List.mem_map] at hl
    obtain ⟨p, hp, rfl⟩ := hl
    obtain ⟨hmem, hnn⟩ := consume_rows_mem rows q t hc p hp
    refine ⟨p.1, hmem, rfl, ?_⟩
    show p.1.current_shares - p.2 ≤ p.1.current_shares
    linarith

/-- Witness for C4: the worked example again, selling 15 of 20 shares. -/
theorem c4_allocation_sums_exactly_witness :
    ∃ lots,
      define_sell_lots
        [⟨"lot1", 1, 1, 10, 10⟩, ⟨"lot2", 2, 2, 10, 20⟩] 15 = some lots ∧
      (lots.map (fun l => l.shares_sold)).sum = 15 ∧
      ∀ l ∈ lots, ∃ r ∈ [⟨"lot1", 1, 1, 10, 10⟩, ⟨"lot2", 2, 2, 10, 20⟩],
        BuyRow.pg_id r = l.buy_pg_id ∧ l.shares_sold ≤ r.current_shares :=
  c4_allocation_sums_exactly _ 15 (by decide) (by decide) (by decide)
    (by norm_num)

-- sanity check: the worked FIFO example of the spec (§8)
example :
    define_sell_lots
      [⟨"lot1", 1, 1, 10, 10⟩, ⟨"lot2", 2, 2, 10, 20⟩] 15 =
      some [⟨"lot1", 0, 10⟩, ⟨"lot2", 5, 5⟩] := by
  norm_num [define_sell_lots, consume_rows, updated_rows, List.find?,
    List.mapM, List.mapM.loop]
  simp
  norm_num

-- sanity check: oversell walks past the end of the dataframe (IndexError)
example : define_sell_lots [⟨"lot1", 1, 1, 5, 5⟩] 6 = none := by
  norm_num [define_sell_lots, consume_rows]

/-
## Average-cost calculator (`calc_avg_unit_cost`, notion.py lines 555-599)
-/

/-- A buy lot of a position as the spec's data model describes it (§3
`BuyLot`): immutable original quantity and total cost basis, plus the
monotonically non-increasing remaining quantity. -/
structure BuyLot where
  pg_id : String
  original_quantity : ℚ
  remaining_quantity : ℚ
  cost_basis : ℚ
deriving DecidableEq

/-- One row of the all-orders dataframe built in `calc_avg_unit_cost`
(`notion.py` lines 578-593): the `Current shares` and `Cost basis (BUY)`
formula numbers of one order page of the stock.  `none` models an empty
formula value, which pandas reads as NaN and `Series.sum` skips. -/
structure OrderRow where
  pg_id : String
  order_type : String
  current_shares : Option ℚ
  cost_basis : Option ℚ
deriving DecidableEq

/-- Python's `round` to an integer: round half to even.  The model is exact
over ℚ; Python rounds the nearest binary double, which agrees away from
representation-induced ties. -/
def round_half_even (q : ℚ) : ℤ :=
  if q - ⌊q⌋ < 1/2 then ⌊q⌋
  else if 1/2 < q - ⌊q⌋ then ⌊q⌋ + 1
  else if ⌊q⌋ % 2 = 0 then ⌊q⌋ else ⌊q⌋ + 1

/-- Python `round(x, 4)` (`notion.py` line 597). -/
def round4 (q : ℚ) : ℚ := (round_half_even (q * 10000) : ℚ) / 10000

/-- Function `calc_avg_unit_cost` (`notion.py` lines 555-599) after the store query:
the function queries every order page of the stock (the filter has no `Type`
clause, so BUY and SELL pages alike), sums the `Cost basis` column, divides
by the sum of the `Current shares` column and rounds to 4 decimal places.
When the share sum is zero the float division produces NaN (`0.0/0.0`) or
±inf — not a real number, modelled `none`; the source raises no exception
there. -/
def calc_avg_unit_cost (orders : List OrderRow) : Option ℚ :=
  let total_cost := (orders.filterMap (fun o => o.cost_basis)).sum
  let total_shares := (orders.filterMap (fun o => o.current_shares)).sum
  if total_shares = 0 then none
  else some (round4 (total_cost / total_shares))

/-- Modelled from the spec: the `Current shares` and `Cost basis (BUY)`
properties read by `calc_avg_unit_cost` are *formula* properties configured
in the external Notion database; their definitions are not in the
repository.  Per the spec (§3 `Position`), a BUY page's row carries the
lot's remaining quantity and its cost basis shrunk proportionally to
consumption (`remaining_quantity/original_quantity * cost_basis`). -/
def buy_order_row (l : BuyLot) : OrderRow :=
  { pg_id := l.pg_id, order_type := "BUY",
    current_shares := some l.remaining_quantity,
    cost_basis := some (l.remaining_quantity / l.original_quantity *
      l.cost_basis) }

/-- Modelled from the spec: a SELL page of the stock carries no
`Current shares` and no `Cost basis (BUY)` value (the formula is named for
BUY orders; on SELL pages it is empty, read as NaN and skipped by the
sums). -/
def sell_order_row (pg : String) : OrderRow :=
  { pg_id := pg, order_type := "SELL", current_shares := none,
    cost_basis := none }

/-- The spec's derived position total (§3):
`total_remaining_shares = Σ remaining_quantity`. -/
def total_remaining_shares (lots : List BuyLot) : ℚ :=
  (lots.map (fun l => l.remaining_quantity)).sum

/-- The spec's derived position total (§3): `total_remaining_cost =
Σ (remaining_quantity/original_quantity * cost_basis)` — cost basis shrinks
proportionally with consumption, not by naive re-subtraction. -/
def total_remaining_cost (lots : List BuyLot) : ℚ :=
  (lots.map (fun l => l.remaining_quantity / l.original_quantity *
    l.cost_basis)).sum

/-- A `filterMap` of an everywhere-`some` function is a `map`. -/
lemma filterMap_all_some {α β : Type} (f : α → β) :
    ∀ l : List α, l.filterMap (fun a => some (f a)) = l.map f
  | [] => rfl
  | a :: l => by
    simp [List.filterMap_cons, filterMap_all_some f l]

/-- A `filterMap` of an everywhere-`none` function drops everything. -/
lemma filterMap_all_none {α β : Type} :
    ∀ l : List α, l.filterMap (fun _ => (none : Option β)) = []
  | [] => rfl
  | a :: l => by
    simp [List.filterMap_cons, filterMap_all_none (β := β) l]

/-- C3.  For every position (given as its buy lots and sell pages, in
any store order) whose remaining shares are non-zero, `calc_avg_unit_cost`
returns exactly `total_remaining_cost / total_remaining_shares` rounded to
4 decimal places, with each lot's cost basis shrunk proportionally to its
consumption. -/
theorem c3_avg_unit_cost_proportional (lots : List BuyLot)
    (sell_pgs : List String) (orders : List OrderRow)
    (hperm : orders.Perm
      (lots.map buy_order_row ++ sell_pgs.map sell_order_row))
    (hnz : total_remaining_shares lots ≠ 0) :
    calc_avg_unit_cost orders =
      some (round4 (total_remaining_cost lots /
        total_remaining_shares lots)) := by
  have hcost : (orders.filterMap (fun o => o.cost_basis)).sum =
      total_remaining_cost lots := by
    rw [(hperm.filterMap (fun o => o.cost_basis)).sum_eq,
      List.filterMap_append, List.filterMap_map, List.filterMap_map]
    have h1 : ((fun o : OrderRow => o.cost_basis) ∘ buy_order_row) =
        fun l : BuyLot => some (l.remaining_quantity /
          l.original_quantity * l.cost_basis) := rfl
    have h2 : ((fun o : OrderRow => o.cost_basis) ∘ sell_order_row) =
        fun _ : String => (none : Option ℚ) := rfl
    rw [h1, h2, filterMap_all_some, filterMap_all_none, List.append_nil]
    rfl
  have hsh : (orders.filterMap (fun o => o.current_shares)).sum =
      total_remaining_shares lots := by
    rw [(hperm.filterMap (fun o => o.current_shares)).sum_eq,
      List.filterMap_append, List.filterMap_map, List.filterMap_map]
    have h1 : ((fun o : OrderRow => o.current_shares) ∘ buy_order_row) =
        fun l : BuyLot => some l.remaining_quantity := rfl
    have h2 : ((fun o : OrderRow => o.current_shares) ∘ sell_order_row) =
        fun _ : String => (none : Option ℚ) := rfl
    rw [h1, h2, filterMap_all_some, filterMap_all_none, List.append_nil]
    rfl
  simp only [calc_avg_unit_cost, hcost, hsh]
  rw [if_neg hnz]

/-- Witness for C3 at the spec's proportional-shrink example (§8): a lot
bought as 10 shares for $100, partially consumed to 4 remaining, plus one
SELL page: average cost = (4/10 * 100) / 4 = $10.0000. -/
theorem c3_avg_unit_cost_proportional_witness :
    total_remaining_shares [⟨"b1", 10, 4, 100⟩] ≠ 0 ∧
    calc_avg_unit_cost
        [buy_order_row ⟨"b1", 10, 4, 100⟩, sell_order_row "s1"] =
      some (round4 (total_remaining_cost [⟨"b1", 10, 4, 100⟩] /
        total_remaining_shares [⟨"b1", 10, 4, 100⟩])) ∧
    calc_avg_unit_cost
        [buy_order_row ⟨"b1", 10, 4, 100⟩, sell_order_row "s1"] =
      some 10 := by
  refine ⟨by norm_num [total_remaining_shares], ?_, ?_⟩
  · exact c3_avg_unit_cost_proportional [⟨"b1", 10, 4, 100⟩] ["s1"] _
      (List.Perm.refl _) (by norm_num [total_remaining_shares])
  · norm_num [calc_avg_unit_cost, buy_order_row, sell_order_row, round4,
      round_half_even, List.filterMap_cons, List.filterMap_nil]

/-- C5.  Computing the average unit cost of a fully liquidated position
(every lot's remaining quantity 0, so the `Current shares` column sums to
0): the source divides by the zero sum, numpy produces float NaN — no real
value, modelled `none` — and returns it as if it were a number; no
`NoSharesHeldError` is signalled (no such exception class exists anywhere in
the source). -/
theorem c5_zero_shares_returns_nan :
    calc_avg_unit_cost
      [buy_order_row ⟨"b1", 10, 0, 100⟩, sell_order_row "s1"] = none := by
  norm_num [calc_avg_unit_cost, buy_order_row, sell_order_row,
    List.filterMap_cons, List.filterMap_nil]

/-
## Order normalizer (`robinhood.py` `get_order_history`; `main.py` lines
60-96)
-/

/-- One raw fill record of the brokerage order feed as the normalizer reads
it (`robinhood.py`, `main.py` lines 64-70), together with the secondary
monotonic `created` timestamp that the spec's data model (§3 `TradeEvent`)
assigns at ingestion.  The cleaned dataframe built in `main.py` carries no
such column — it reads only the listed order fields. -/
structure RawOrder where
  id : String
  instrument_id : String
  side : String
  state : String
  order_date : ℕ
  created : ℕ
  shares : ℚ
  unit_cost : ℚ
  fees : ℚ
deriving DecidableEq

/-- The per-record filter of `get_order_history` (`robinhood.py` lines
60-67, repeated for every follow-up page in lines 73-79): keep orders whose
side is buy or sell and whose state is filled, optionally restricted to one
instrument. -/
def keep_order (instrument_id : Option String) (r : RawOrder) : Bool :=
  if (r.side == "buy" || r.side == "sell") && r.state == "filled" then
    match instrument_id with
    | none => true
    | some iid => r.instrument_id == iid
  else false

/-- Function `get_order_history` (`robinhood.py` lines 45-81): the order feed is
paginated; the records of the first page and of every follow-up page are
filtered with `keep_order` and appended in order. -/
def get_order_history (instrument_id : Option String)
    (pages : List (List RawOrder)) : List RawOrder :=
  pages.foldl
    (fun acc page => acc ++ page.filter (keep_order instrument_id)) []

lemma get_order_history_foldl (instrument_id : Option String) :
    ∀ (pages : List (List RawOrder)) (acc : List RawOrder),
      pages.foldl
        (fun acc page => acc ++ page.filter (keep_order instrument_id))
        acc =
      acc ++ (pages.flatten).filter (keep_order instrument_id)
  | [], acc => by simp
  | page :: pages, acc => by
    rw [List.foldl_cons, get_order_history_foldl instrument_id pages,
      show (page :: pages).flatten = page ++ pages.flatten from rfl,
      List.filter_append, List.append_assoc]

/-- With no instrument restriction, `keep_order` is exactly the buy-or-sell
and filled test. -/
lemma keep_order_none (r : RawOrder) :
    keep_order none r =
      ((r.side == "buy" || r.side == "sell") && r.state == "filled") := by
  unfold keep_order
  split
  · next h => rw [h]
  · next h => exact (Bool.not_eq_true _).mp h |>.symm

/-- C7.  The normalizer's output contains exactly those raw fill
records whose side is buy or sell and whose state is filled; cancelled and
open orders are excluded before any accounting. -/
theorem c7_filter_filled_buy_sell (pages : List (List RawOrder))
    (r : RawOrder) :
    r ∈ get_order_history none pages ↔
      r ∈ pages.flatten ∧
        (r.side = "buy" ∨ r.side = "sell") ∧ r.state = "filled" := by
  rw [get_order_history, get_order_history_foldl, List.nil_append,
    List.mem_filter, keep_order_none]
  simp

/-- Ascending order of raw orders by event timestamp alone — the sort key of
`cleaned_orders_df.sort_values('order_date')` (`main.py` line 95). -/
def order_date_le (a b : RawOrder) : Prop := a.order_date ≤ b.order_date

instance : DecidableRel order_date_le := fun a b => by
  unfold order_date_le; infer_instance

instance : IsTotal RawOrder order_date_le :=
  ⟨fun a b => le_total a.order_date b.order_date⟩

instance : IsTrans RawOrder order_date_le :=
  ⟨fun _ _ _ h1 h2 => le_trans h1 h2⟩

/-- Sort step `cleaned_orders_df.sort_values('order_date')` (`main.py` line 95): the
normalizer sorts the cleaned orders ascending by the event timestamp alone —
there is no secondary key.  Modelled as a stable insertion sort on that
single key; pandas' default quicksort promises no particular tie order at
all (and the cleaned dataframe has no created column to break ties with),
and agrees with the stable sort on the two-element tie below. -/
def sort_orders (orders : List RawOrder) : List RawOrder :=
  orders.insertionSort order_date_le

/-- The spec's event ordering (§3 `TradeEvent`): ascending by the pair
(event timestamp, created timestamp), lexicographically. -/
def ts_created_le (a b : RawOrder) : Prop :=
  a.order_date < b.order_date ∨
    (a.order_date = b.order_date ∧ a.created ≤ b.created)

instance : DecidableRel ts_created_le := fun a b => by
  unfold ts_created_le; infer_instance

/-- C6, counterexample.  Two filled orders with the same event
timestamp whose created timestamps are out of input order: the normalizer's
sort keeps them in record-store/input order (`o1` before `o2`), so the
output is *not* sorted by the pair (timestamp, created) — the claimed
tie-break by created timestamp does not exist in the code. -/
theorem c6_counterexample_no_tiebreak :
    ¬ List.Sorted ts_created_le
      (sort_orders
        [⟨"o1", "i", "buy", "filled", 5, 2, 1, 1, 0⟩,
         ⟨"o2", "i", "buy", "filled", 5, 1, 1, 1, 0⟩]) := by
  decide

/-- C6, amended.  The normalizer's output is a permutation of its input
sorted ascending by the event timestamp alone; equal-timestamp events are
left in whatever relative order the feed supplied (no tie-break by a
created timestamp). -/
theorem c6_sorted_by_timestamp_only (orders : List RawOrder) :
    List.Sorted order_date_le (sort_orders orders) ∧
      (sort_orders orders).Perm orders :=
  ⟨List.sorted_insertionSort order_date_le orders,
    List.perm_insertionSort order_date_le orders⟩

/-
## Record-store pagination (`notion.py` `get_db_pages`, lines 111-174)
-/

/-- A Notion database-query request body as `get_db_pages` builds it.  The
first request carries the caller's filter and no cursor (lines 145-153);
each follow-up request is built as `{'start_cursor': ...}` only (lines
162-165). -/
structure QueryRequest (φ : Type) where
  filter : Option φ
  start_cursor : Option ℕ
deriving DecidableEq

/-- One page of query results: `results`, `has_more` and `next_cursor`. -/
structure QueryResponse (π : Type) where
  results : List π
  has_more : Bool
  next_cursor : ℕ
deriving DecidableEq

/-- The `while next_page` loop of `get_db_pages` (lines 162-172): as long
as the last response says `has_more`, issue a new request holding *only*
the continuation cursor — the caller's filter is not re-sent — and append
the page's results.  `fuel` bounds the loop, which in Python runs for as
long as the server keeps answering `has_more`. -/
def get_db_pages_loop {φ π : Type}
    (server : QueryRequest φ → QueryResponse π) :
    ℕ → QueryResponse π → List π × List (QueryRequest φ)
  | 0, _ => ([], [])
  | fuel + 1, resp =>
    if resp.has_more then
      let req : QueryRequest φ := ⟨none, some resp.next_cursor⟩
      let resp2 := server req
      (resp2.results ++ (get_db_pages_loop server fuel resp2).1,
        req :: (get_db_pages_loop server fuel resp2).2)
    else ([], [])

/-- Function `get_db_pages` (`notion.py` lines 111-174): issue the filtered first
request, then follow `has_more`/`next_cursor` with `get_db_pages_loop`.
Returns the accumulated result pages together with the list of requests
issued (first component of each pair: results; second: requests). -/
def get_db_pages {φ π : Type} (server : QueryRequest φ → QueryResponse π)
    (filters : Option φ) (fuel : ℕ) :
    List π × List (QueryRequest φ) :=
  let req0 : QueryRequest φ := ⟨filters, none⟩
  let resp0 := server req0
  (resp0.results ++ (get_db_pages_loop server fuel resp0).1,
    req0 :: (get_db_pages_loop server fuel resp0).2)

/-- Every request the continuation loop issues carries no filter and some
cursor. -/
lemma get_db_pages_loop_requests {φ π : Type}
    (server : QueryRequest φ → QueryResponse π) :
    ∀ (fuel : ℕ) (resp : QueryResponse π) (req : QueryRequest φ),
      req ∈ (get_db_pages_loop server fuel resp).2 →
      req.filter = none ∧ req.start_cursor.isSome = true
  | 0, resp, req, h => by simp [get_db_pages_loop] at h
  | fuel + 1, resp, req, h => by
    rw [get_db_pages_loop] at h
    by_cases hm : resp.has_more = true
    · rw [if_pos hm] at h
      rcases List.mem_cons.mp h with rfl | h'
      · exact ⟨rfl, rfl⟩
      · exact get_db_pages_loop_requests server fuel _ req h'
    · rw [if_neg hm] at h
      simp at h

/-- A demonstration store for C9: it holds the records `[2, 4, 1, 3]` and
honours the filter tag by returning only records satisfying
`demo_filter_pred` — but only when the request actually carries the filter.
A first filtered page answers `has_more`; the follow-up request arrives
without the filter, so the server pages through *all* records from the
cursor on. -/
def demo_filter_pred (n : ℕ) : Bool := n % 2 == 0

def demo_store : List ℕ := [2, 4, 1, 3]

def demo_server (req : QueryRequest ℕ) : QueryResponse ℕ :=
  match req.filter, req.start_cursor with
  | some _, _ =>
    { results := (demo_store.filter demo_filter_pred).take 1,
      has_more := true, next_cursor := 1 }
  | none, some c =>
    { results := demo_store.drop c, has_more := false, next_cursor := 0 }
  | none, none =>
    { results := demo_store, has_more := false, next_cursor := 0 }

/-- C9.  For every record-store query whose results span more than one
page, the requests for the second and subsequent pages are issued with only
the continuation cursor and without the filter; consequently records
returned beyond the first page need not satisfy the filter predicate — the
demonstration store returns the odd record 1 from a query whose first
request carried the evenness filter. -/
theorem c9_pagination_drops_filter :
    (∀ (φ π : Type) (server : QueryRequest φ → QueryResponse π)
        (filters : Option φ) (fuel : ℕ) (req : QueryRequest φ),
      req ∈ ((get_db_pages server filters fuel).2).tail →
        req.filter = none ∧ req.start_cursor.isSome = true) ∧
    (1 ∈ (get_db_pages demo_server (some 0) 2).1 ∧
      demo_filter_pred 1 = false) := by
  constructor
  · intro φ π server filters fuel req h
    rw [get_db_pages] at h
    exact get_db_pages_loop_requests server fuel _ req h
  · constructor
    · decide
    · decide

/-- Witness for C9: the single follow-up request of the demonstration run
indeed carries no filter and only the cursor. -/
theorem c9_pagination_drops_filter_witness :
    ({ filter := none, start_cursor := some 1 } : QueryRequest ℕ).filter =
        none ∧
      ({ filter := none, start_cursor := some 1 } :
        QueryRequest ℕ).start_cursor.isSome = true :=
  c9_pagination_drops_filter.1 ℕ ℕ demo_server (some 0) 2
    { filter := none, start_cursor := some 1 } (by decide)

/-
## Sync orchestrator, SELL branch (`main.py` lines 166-205) and the
allocator's store effects
-/

/-- The store-relevant steps the orchestrator performs, in order, for one
event. -/
inductive SyncAction where
  | calc_avg (stock_pg_id : String) (result : Option ℚ)
  | create_order_pg (order_type : String) (avg_unit_cost : Option ℚ)
      (result_pg_id : Option String)
  | allocate (stock_pg_id : String) (total_shares_sold : ℚ)
      (result : Option (List SellLot))
  | create_sell_lot_pg (sell_pg_id : String) (buy_pg_id : String)
      (shares : ℚ)
deriving DecidableEq

/-- The SELL branch of the orchestrator (`main.py` lines 166-205) as the
ordered trace of its steps: get the current average cost (line 176, before
any lot is touched), create the SELL order page carrying that average (lines
177-181), and on success run `define_sell_lots` (line 185) and create one
sell-lot page per produced (lot, shares) pair, linked to the SELL page and
to the consumed buy page (lines 187-204).  `order_rows` is the stock's
order-page table read by `calc_avg_unit_cost`; `buy_rows` the sorted
positive-remainder buy lots the allocator works on; `sell_pg_result` the
page id the store grants the SELL record (`none` models a failed create,
after which the branch does nothing more).  An allocator crash (oversell
`IndexError`) ends the run at the `allocate` step. -/
def process_sell_order (stock_pg_id : String) (order_rows : List OrderRow)
    (buy_rows : List BuyRow) (shares : ℚ)
    (sell_pg_result : Option String) : List SyncAction :=
  SyncAction.calc_avg stock_pg_id (calc_avg_unit_cost order_rows) ::
    SyncAction.create_order_pg "SELL" (calc_avg_unit_cost order_rows)
      sell_pg_result ::
    (match sell_pg_result with
     | none => []
     | some sell_pg_id =>
       match define_sell_lots buy_rows shares with
       | none => [SyncAction.allocate stock_pg_id shares none]
       | some lots =>
         SyncAction.allocate stock_pg_id shares (some lots) ::
           lots.map (fun lot =>
             SyncAction.create_sell_lot_pg sell_pg_id lot.buy_pg_id
               lot.shares_sold))

/-- C8.  For every SELL event the orchestrator processes successfully,
the trace is exactly: recompute the average cost (before any lot is
mutated — no sell-lot record precedes it), create the SELL record carrying
that average, run the allocator, then create one child sell-lot record per
produced (lot, shares) pair, each linked to the SELL record's page id and
to the consumed buy lot's page id. -/
theorem c8_sell_steps_in_order (stock_pg_id : String)
    (order_rows : List OrderRow) (buy_rows : List BuyRow) (shares : ℚ)
    (sell_pg_id : String) (lots : List SellLot)
    (halloc : define_sell_lots buy_rows shares = some lots) :
    process_sell_order stock_pg_id order_rows buy_rows shares
        (some sell_pg_id) =
      [SyncAction.calc_avg stock_pg_id (calc_avg_unit_cost order_rows),
       SyncAction.create_order_pg "SELL" (calc_avg_unit_cost order_rows)
         (some sell_pg_id),
       SyncAction.allocate stock_pg_id shares (some lots)] ++
        lots.map (fun lot =>
          SyncAction.create_sell_lot_pg sell_pg_id lot.buy_pg_id
            lot.shares_sold) := by
  rw [process_sell_order, halloc]
  rfl

/-- Witness for C8 at the worked example: selling 15 shares against the
two-lot position, with the store granting page id `sellpg`. -/
theorem c8_sell_steps_in_order_witness :
    process_sell_order "stk" []
        [⟨"lot1", 1, 1, 10, 10⟩, ⟨"lot2", 2, 2, 10, 20⟩] 15
        (some "sellpg") =
      [SyncAction.calc_avg "stk" (calc_avg_unit_cost []),
       SyncAction.create_order_pg "SELL" (calc_avg_unit_cost [])
         (some "sellpg"),
       SyncAction.allocate "stk" 15
         (some [⟨"lot1", 0, 10⟩, ⟨"lot2", 5, 5⟩])] ++
        [⟨"lot1", 0, 10⟩, ⟨"lot2", 5, 5⟩].map
          (fun lot : SellLot =>
            SyncAction.create_sell_lot_pg "sellpg" lot.buy_pg_id
              lot.shares_sold) := by
  apply c8_sell_steps_in_order
  norm_num [define_sell_lots, consume_rows, updated_rows, List.find?,
    List.mapM, List.mapM.loop]
  simp
  norm_num

/-- The operations the repository can issue against the record store. -/
inductive StoreOp where
  | query (db_id : String) (req : QueryRequest String)
  | create (db_id : String) (pg_id : String) (number : ℚ)
  | update (pg_id : String) (number : ℚ)
deriving DecidableEq

/-- A minimal record store: pages with a numeric property, keyed by page
id.  Queries leave it untouched; creates append; updates rewrite the keyed
page. -/
def apply_op (s : List (String × ℚ)) : StoreOp → List (String × ℚ)
  | StoreOp.query _ _ => s
  | StoreOp.create _ pg n => s ++ [(pg, n)]
  | StoreOp.update pg n => s.map (fun e => if e.1 == pg then (pg, n) else e)

def apply_ops (s : List (String × ℚ)) (ops : List StoreOp) :
    List (String × ℚ) :=
  ops.foldl apply_op s

/-- The store operations `define_sell_lots` itself performs (`notion.py`
lines 473-490): one filtered query of the orders database via
`get_db_pages` — that is, one POST per result page — and nothing else; all
its lot arithmetic happens on a local dataframe. -/
def define_sell_lots_ops
    (server : QueryRequest String → QueryResponse BuyRow)
    (orders_db_id stock_pg_id : String) (fuel : ℕ) : List StoreOp :=
  ((get_db_pages server (some stock_pg_id) fuel).2).map
    (fun req => StoreOp.query orders_db_id req)

lemma apply_ops_of_queries (db_id : String) :
    ∀ (reqs : List (QueryRequest String)) (store : List (String × ℚ)),
      apply_ops store (reqs.map (fun req => StoreOp.query db_id req)) =
        store
  | [], _ => rfl
  | req :: reqs, store => by
    rw [List.map_cons, apply_ops, List.foldl_cons]
    exact apply_ops_of_queries db_id reqs store

/-- C10.  The allocator issues no create or update against the record
store: every operation it performs is a query of the orders database, and
replaying its operations over any store state leaves the store — in
particular every persisted buy lot — unchanged.  (Lot consumption reaches
the store only through the child sell-lot records the orchestrator creates
afterwards; see the `create_sell_lot_pg` steps of `process_sell_order`
following the `allocate` step.) -/
theorem c10_allocator_writes_nothing
    (server : QueryRequest String → QueryResponse BuyRow)
    (orders_db_id stock_pg_id : String) (fuel : ℕ)
    (store : List (String × ℚ)) :
    (∀ op ∈ define_sell_lots_ops server orders_db_id stock_pg_id fuel,
      ∃ req, op = StoreOp.query orders_db_id req) ∧
    apply_ops store
        (define_sell_lots_ops server orders_db_id stock_pg_id fuel) =
      store := by
  constructor
  · intro op hop
    rw [define_sell_lots_ops, List.mem_map] at hop
    obtain ⟨req, _, rfl⟩ := hop
    exact ⟨req, rfl⟩
  · rw [define_sell_lots_ops, apply_ops_of_queries]
